import Mathlib

/-!
# Continuous AI Reviewer — Issue Location Reconciliation & Lifecycle Engine

Shallow embedding of the reconciliation core of the `continuous-ai-reviewer`
VS Code extension: the location resolver (`findCurrentLine` in
`src/decorationManager.ts`), the two presentation consumers
(`applyDecorationsToEditor` in `src/decorationManager.ts` and
`updateDiagnostics` / `createDiagnostic` in `src/diagnosticManager.ts`),
the dismissal ledgers of both managers together with the extension-level
dismiss / clear commands (`src/extension.ts`), and the per-file issue index
built by review ingestion (`updateReview` / `updateDiagnostics`).

JavaScript strings are modelled as Lean `String`; `split` and `trim` are
modelled by structurally recursive functions over the character list so that
all definitions evaluate inside the kernel.  JavaScript numbers carried by
issues (`id`, `line`) are modelled as `Int`; optional fields as `Option`,
with the source's truthiness tests (`!issue.line`, `if (issue.lineContent)`,
`issue.line || 1`) translated explicitly (`none` / `some 0`, `none` /
`some ""` behave as absent).
-/

namespace CAR

/-- Model of JavaScript `String.prototype.split(sep)` for a one-character
separator: accumulate the current segment (in reverse) and cut at each
separator occurrence.  `"".split(sep)` yields `[""]`, and a trailing
separator yields a trailing empty segment, as in JavaScript. -/
def splitOnCharAux (sep : Char) : List Char → List Char → List String
  | [], acc => [⟨acc.reverse⟩]
  | c :: rest, acc =>
    if c = sep then ⟨acc.reverse⟩ :: splitOnCharAux sep rest []
    else splitOnCharAux sep rest (c :: acc)

/-- JavaScript `s.split(sep)` for a one-character separator `sep`. -/
def splitOnChar (sep : Char) (s : String) : List String :=
  splitOnCharAux sep s.data []

/-- `fileContent.split("\n")` from `findCurrentLine`. -/
def splitLines (fileContent : String) : List String :=
  splitOnChar '\n' fileContent

/-- Model of JavaScript `String.prototype.trim()`: strip leading and
trailing whitespace.  The repository's data only contains ASCII whitespace,
for which `Char.isWhitespace` agrees with the JavaScript definition. -/
def jsTrim (s : String) : String :=
  ⟨((s.data.dropWhile Char.isWhitespace).reverse.dropWhile
      Char.isWhitespace).reverse⟩

/-- JavaScript array indexing `xs[i]` (undefined out of bounds, including
negative indices) as an `Option`. -/
def jsIndex (xs : List String) (i : Int) : Option String :=
  if i < 0 then none else xs.get? i.toNat

/-- Severity of an issue (`"low" | "medium" | "high"` in `agent.ts`). -/
inductive Severity
  | low
  | medium
  | high
deriving DecidableEq, Repr

/-- The `Issue` interface of `src/agent.ts`.  Optional fields are `Option`;
`id` and `line` are JavaScript numbers, modelled as `Int`. -/
structure Issue where
  id : Int
  severity : Severity
  filename : String
  line : Option Int := none
  title : String
  comments : String
  category : String
  suggestion : Option String := none
  lineContent : Option String := none
  contextBefore : Option (List String) := none
  contextAfter : Option (List String) := none
  reviewCommit : Option String := none
deriving DecidableEq, Repr

/-- The `ReviewResponse` interface of `src/agent.ts`. -/
structure ReviewResponse where
  issues : List Issue
deriving DecidableEq, Repr

/-- `LocationConfidence` from `src/decorationManager.ts`. -/
inductive LocationConfidence
  | exact
  | approximate
  | stale
deriving DecidableEq, Repr

/-- The result record of `findCurrentLine`
(`{ currentLine: number; confidence: LocationConfidence }`); `currentLine`
is an `Option` because the consumers' `DecoratedIssue` type admits
`currentLine: number | null` and `applyDecorationsToEditor` tests
`location.currentLine === null`. -/
structure ResolvedLocation where
  currentLine : Option Int
  confidence : LocationConfidence
deriving DecidableEq, Repr

/-- The window search of `findCurrentLine` over an explicit list of
offsets: skip offset `0`, skip out-of-bounds candidate lines, and return
the first candidate line whose trimmed text equals
`originalLineContent`. -/
def windowSearchAux (lines : List String) (orig : String) (n : Int) :
    List Int → Option Int
  | [] => none
  | offset :: rest =>
    if offset = 0 then windowSearchAux lines orig n rest
    else if n + offset < 1 ∨ n + offset > (lines.length : Int) then
      windowSearchAux lines orig n rest
    else if (jsIndex lines (n + offset - 1)).map jsTrim = some orig then
      some (n + offset)
    else windowSearchAux lines orig n rest

/-- The offsets visited by `for (let offset = -10; offset <= 10; offset++)`. -/
def windowOffsets : List Int :=
  [-10, -9, -8, -7, -6, -5, -4, -3, -2, -1, 0, 1, 2, 3, 4, 5, 6, 7, 8, 9, 10]

/-- The "search nearby lines (±10 lines)" loop of `findCurrentLine`. -/
def windowSearch (lines : List String) (n : Int) (orig : String) :
    Option Int :=
  windowSearchAux lines orig n windowOffsets

/-- The "full file search as last resort" loop of `findCurrentLine`:
return `i + 1` (1-based) for the first index `i` with
`lines[i].trim() === originalLineContent`. -/
def fullScanAux (orig : String) : List String → Nat → Option Nat
  | [], _ => none
  | l :: rest, i =>
    if jsTrim l = orig then some (i + 1) else fullScanAux orig rest (i + 1)

/-- `fullScanAux` started at index 0. -/
def fullScan (lines : List String) (orig : String) : Option Nat :=
  fullScanAux orig lines 0

/-- The fallthrough of `findCurrentLine` when no `lineContent` is
available: use the recorded line number at `approximate` confidence when in
bounds, else fall through to the final `stale` return. -/
def lineNumberFallback (n : Int) (numLines : Nat) : Option ResolvedLocation :=
  if 0 < n ∧ n ≤ (numLines : Int) then
    some ⟨some n, .approximate⟩
  else
    some ⟨some n, .stale⟩

/-- `findCurrentLine(issue, fileContent)` from `src/decorationManager.ts`.
`!issue.line` is `line = none` or `line = some 0`; `if (issue.lineContent)`
treats `none` and `some ""` as absent. -/
def findCurrentLine (issue : Issue) (fileContent : String) :
    Option ResolvedLocation :=
  match issue.line with
  | none => none
  | some n =>
    if n = 0 then none
    else
      let lines := splitLines fileContent
      match issue.lineContent with
      | some lc =>
        if lc = "" then lineNumberFallback n lines.length
        else
          let originalLineContent := jsTrim lc
          if (jsIndex lines (n - 1)).map jsTrim = some originalLineContent
          then
            some ⟨some n, .exact⟩
          else
            match windowSearch lines n originalLineContent with
            | some checkLine => some ⟨some checkLine, .approximate⟩
            | none =>
              match fullScan lines originalLineContent with
              | some i1 => some ⟨some (i1 : Int), .approximate⟩
              | none => some ⟨some n, .stale⟩
      | none => lineNumberFallback n lines.length

/-- `m` is a (1-based) line of `lines` whose trimmed text equals `orig`:
the property established by any successful content comparison of
`findCurrentLine`. -/
def matchesAt (lines : List String) (orig : String) (m : Int) : Prop :=
  ∃ s, jsIndex lines (m - 1) = some s ∧ jsTrim s = orig

instance (lines : List String) (orig : String) (m : Int) :
    Decidable (matchesAt lines orig m) := by
  unfold matchesAt
  rcases h : jsIndex lines (m - 1) with _ | s
  · exact .isFalse (by simp [h])
  · exact decidable_of_iff (jsTrim s = orig) (by simp [h])

/-- `getIssueKey(issue)` from `src/decorationManager.ts`: the identity key
`` `${issue.filename}:${issue.id}:${issue.title}` ``. -/
def getIssueKey (issue : Issue) : String :=
  issue.filename ++ ":" ++ toString issue.id ++ ":" ++ issue.title

/-- The key used by `DiagnosticManager.isIssueDismissed` / `dismissIssue`:
`` `${issue.filename}:${issue.id}` `` (no title). -/
def diagnosticKey (issue : Issue) : String :=
  issue.filename ++ ":" ++ toString issue.id

/-- JavaScript `Set.prototype.add`: append the element if absent (a `Set`
preserves insertion order). -/
def jsSetAdd (s : List String) (k : String) : List String :=
  if k ∈ s then s else s ++ [k]

/-- `DecorationManager.isIssueDismissed`: membership of the identity key in
the decoration manager's `dismissedIssues` set. -/
def decorationIsDismissed (dismissed : List String) (issue : Issue) : Bool :=
  decide (getIssueKey issue ∈ dismissed)

/-- `DiagnosticManager.isIssueDismissed`: membership of
`` `${filename}:${id}` `` in the diagnostic manager's own
`dismissedIssues` set. -/
def diagnosticIsDismissed (dismissed : List String) (issue : Issue) : Bool :=
  decide (diagnosticKey issue ∈ dismissed)

/-- One inline decoration produced by `applyDecorationsToEditor`: the
0-based rendered line, the confidence (selecting the solid or dashed
decoration type), and the issue the hover message is built from. -/
structure RenderedDecoration where
  issue : Issue
  line0 : Int
  confidence : LocationConfidence
deriving DecidableEq, Repr

/-- The per-issue loop of `applyDecorationsToEditor` for one editor whose
document text is `fileContent`: skip dismissed issues, resolve with
`findCurrentLine`, skip missing / `currentLine === null` / `stale` results,
convert to a 0-based line, and skip lines outside `document.lineCount`.
The six per-severity/confidence arrays passed to `setDecorations` are the
evident filters of the returned list. -/
def decorationRender (dismissed : List String) (issues : List Issue)
    (fileContent : String) : List RenderedDecoration :=
  issues.filterMap fun issue =>
    if decorationIsDismissed dismissed issue then none
    else
      match findCurrentLine issue fileContent with
      | none => none
      | some location =>
        match location.currentLine with
        | none => none
        | some currentLine =>
          if location.confidence = .stale then none
          else
            let lineNumber := currentLine - 1
            if lineNumber < 0 ∨
                lineNumber ≥ ((splitLines fileContent).length : Int) then
              none
            else some ⟨issue, lineNumber, location.confidence⟩

/-- `vscode.DiagnosticSeverity` values used by `mapSeverity`. -/
inductive DiagnosticSeverity
  | error
  | warning
  | information
deriving DecidableEq, Repr

/-- `DiagnosticManager.mapSeverity`. -/
def mapSeverity : Severity → DiagnosticSeverity
  | .high => .error
  | .medium => .warning
  | .low => .information

/-- `DiagnosticManager.buildDiagnosticMessage` (`category`, `comments` and
`suggestion` are required strings on `Issue`, but `comments` is tested for
truthiness, so the empty string is skipped like an absent field). -/
def buildDiagnosticMessage (issue : Issue) : String :=
  let message := issue.title
  let message := if issue.category = "" then message
    else message ++ " (" ++ issue.category ++ ")"
  let message := if issue.comments = "" then message
    else message ++ "\n" ++ issue.comments
  match issue.suggestion with
  | some s => if s = "" then message else message ++ "\nSuggestion: " ++ s
  | none => message

/-- One Problems-panel diagnostic produced by
`DiagnosticManager.createDiagnostic`. -/
structure RenderedDiagnostic where
  issue : Issue
  line0 : Int
  severity : DiagnosticSeverity
  message : String
  code : String
deriving DecidableEq, Repr

/-- `issue.line || 1`: the recorded line when truthy, else `1`. -/
def jsLineOr1 : Option Int → Int
  | none => 1
  | some n => if n = 0 then 1 else n

/-- `DiagnosticManager.createDiagnostic`: render at the 0-based line
`(issue.line || 1) - 1` — no call to the location resolver and no
dependence on the current file text. -/
def createDiagnostic (issue : Issue) : RenderedDiagnostic :=
  { issue := issue
    line0 := jsLineOr1 issue.line - 1
    severity := mapSeverity issue.severity
    message := buildDiagnosticMessage issue
    code := "CAR-" ++ toString issue.id }

/-- The per-issue loop of `DiagnosticManager.updateDiagnostics` for one
file's issue list: skip dismissed issues, render the rest with
`createDiagnostic`. -/
def diagnosticRender (dismissed : List String) (issues : List Issue) :
    List RenderedDiagnostic :=
  issues.filterMap fun issue =>
    if diagnosticIsDismissed dismissed issue then none
    else some (createDiagnostic issue)

/-- The two managers' dismissed-issue sets (`DecorationManager` and
`DiagnosticManager` each keep their own `Set<string>`). -/
structure LedgerState where
  dec : List String
  diag : List String
deriving DecidableEq, Repr

/-- Model of JavaScript `parseInt(s, 10)`: skip leading whitespace, accept
an optional sign, and parse the maximal (nonempty) prefix of base-10
digits; `none` models `NaN`. -/
def digitsVal (cs : List Char) : Option Nat :=
  let ds := cs.takeWhile Char.isDigit
  if ds = [] then none
  else some (ds.foldl (fun a c => a * 10 + (c.toNat - 48)) 0)

/-- JavaScript `parseInt(s, 10)`; see `digitsVal`. -/
def parseInt10 (s : String) : Option Int :=
  match s.data.dropWhile Char.isWhitespace with
  | '-' :: rest => (digitsVal rest).map fun v => -(v : Int)
  | '+' :: rest => (digitsVal rest).map fun v => (v : Int)
  | cs => (digitsVal cs).map fun v => (v : Int)

/-- The `continuous-ai-reviewer.dismissIssue` command handler in
`src/extension.ts`: add the key to the decoration manager's set, then split
the key on `":"`; when at least two parts exist, call
`diagnosticManager.dismissIssue(parts[0], parseInt(parts[1], 10))`, which
adds `` `${filename}:${issueId}` `` to the diagnostic manager's set (the
string `"NaN"` when parsing fails, as in the template literal). -/
def dismissIssueCommand (st : LedgerState) (issueKey : String) :
    LedgerState :=
  let dec := jsSetAdd st.dec issueKey
  match splitOnChar ':' issueKey with
  | filename :: idStr :: _ =>
    let diagKey := match parseInt10 idStr with
      | some id => filename ++ ":" ++ toString id
      | none => filename ++ ":NaN"
    ⟨dec, jsSetAdd st.diag diagKey⟩
  | _ => ⟨dec, st.diag⟩

/-- The `continuous-ai-reviewer.clearDismissedIssues` command handler:
`decorationManager.clearDismissedIssues()` and
`diagnosticManager.clearDismissedIssues()` both clear their sets. -/
def clearDismissedCommand (_ : LedgerState) : LedgerState :=
  ⟨[], []⟩

/-- `if (!issue.reviewCommit) issue.reviewCommit = reviewCommit;` performed
on every ingested issue by `DecorationManager.updateReview`. -/
def backfillCommit (reviewCommit : String) (issue : Issue) : Issue :=
  match issue.reviewCommit with
  | none => { issue with reviewCommit := some reviewCommit }
  | some c =>
    if c = "" then { issue with reviewCommit := some reviewCommit } else issue

/-- One step of the per-file index construction in `updateReview` /
`updateDiagnostics`: a JavaScript `Map` keyed by the issue's file path
(`path.join(workspaceRoot, issue.filename)`, modelled by the filename for a
fixed workspace root), where the issue is pushed onto the existing entry's
array, or a new entry is appended in insertion order. -/
def addToIndex : List (String × List Issue) → Issue →
    List (String × List Issue)
  | [], issue => [(issue.filename, [issue])]
  | (k, xs) :: rest, issue =>
    if k = issue.filename then (k, xs ++ [issue]) :: rest
    else (k, xs) :: addToIndex rest issue

/-- `map.get(key)` on the per-file index, with `[]` for a missing file. -/
def indexLookup : List (String × List Issue) → String → List Issue
  | [], _ => []
  | (k, xs) :: rest, f => if k = f then xs else indexLookup rest f

/-- The `issuesByFile` index built by `DecorationManager.updateReview`:
backfill `reviewCommit` on each issue, then fold the issues into the
per-file map in input order. -/
def updateReviewIndex (reviewResponse : ReviewResponse)
    (reviewCommit : String) : List (String × List Issue) :=
  ((reviewResponse.issues.map (backfillCommit reviewCommit)).foldl
    addToIndex [])

/-- The stored sequence of issues for one file after ingestion — the
sequence `applyDecorationsToEditor` iterates. -/
def issuesFor (reviewResponse : ReviewResponse) (reviewCommit : String)
    (filename : String) : List Issue :=
  indexLookup (updateReviewIndex reviewResponse reviewCommit) filename

/-- Modelled from the spec: the ordering contract claimed in §4.1,
"stable ordering by (severity high→low, id ascending)", as a check on
adjacent elements of the stored sequence. -/
def severityRank : Severity → Nat
  | .high => 0
  | .medium => 1
  | .low => 2

/-- Modelled from the spec: `a` may precede `b` under the §4.1 ordering
contract. -/
def specIssueLe (a b : Issue) : Bool :=
  severityRank a.severity < severityRank b.severity ||
    (a.severity = b.severity && a.id ≤ b.id)

/-- Modelled from the spec: the stored sequence is ordered by
(severity high→low, id ascending). -/
def specOrdered : List Issue → Bool
  | [] => true
  | [_] => true
  | a :: b :: rest => specIssueLe a b && specOrdered (b :: rest)

/-! ## Helper lemmas -/

theorem jsIndex_some_bounds {xs : List String} {i : Int} {s : String}
    (h : jsIndex xs i = some s) : 0 ≤ i ∧ i < (xs.length : Int) := by
  unfold jsIndex at h
  split at h
  · exact absurd h (by simp)
  · next hi =>
    have h1 := (List.get?_eq_some.mp h).1
    omega

theorem matchesAt_map_eq {lines : List String} {orig : String} {m : Int}
    (h : matchesAt lines orig m) :
    (jsIndex lines (m - 1)).map jsTrim = some orig := by
  obtain ⟨s, hs, ht⟩ := h
  simp [hs, ht]

theorem matchesAt_bounds {lines : List String} {orig : String} {m : Int}
    (h : matchesAt lines orig m) : 1 ≤ m ∧ m ≤ (lines.length : Int) := by
  obtain ⟨s, hs, -⟩ := h
  have := jsIndex_some_bounds hs
  omega

theorem map_eq_matchesAt {lines : List String} {orig : String} {m : Int}
    (h : (jsIndex lines (m - 1)).map jsTrim = some orig) :
    matchesAt lines orig m := by
  rcases Option.map_eq_some'.mp h with ⟨s, hs, ht⟩
  exact ⟨s, hs, ht⟩

theorem windowSearchAux_sound {lines : List String} {orig : String}
    {n m : Int} :
    ∀ offs, windowSearchAux lines orig n offs = some m →
      ∃ o ∈ offs, o ≠ 0 ∧ m = n + o ∧ matchesAt lines orig m := by
  intro offs
  induction offs with
  | nil => intro h; simp [windowSearchAux] at h
  | cons a rest ih =>
    intro h
    unfold windowSearchAux at h
    split at h
    · obtain ⟨o, ho, h⟩ := ih h
      exact ⟨o, List.mem_cons_of_mem _ ho, h⟩
    · next ha =>
      split at h
      · obtain ⟨o, ho, h⟩ := ih h
        exact ⟨o, List.mem_cons_of_mem _ ho, h⟩
      · split at h
        · next hc =>
          cases h
          exact ⟨a, List.mem_cons_self _ _, ha, rfl, map_eq_matchesAt hc⟩
        · obtain ⟨o, ho, h⟩ := ih h
          exact ⟨o, List.mem_cons_of_mem _ ho, h⟩

theorem windowSearchAux_isSome {lines : List String} {orig : String}
    {n o : Int} :
    ∀ offs, o ∈ offs → o ≠ 0 → matchesAt lines orig (n + o) →
      (windowSearchAux lines orig n offs).isSome := by
  intro offs
  induction offs with
  | nil => intro h; simp at h
  | cons a rest ih =>
    intro ho hz hm
    unfold windowSearchAux
    rcases List.mem_cons.mp ho with rfl | ho'
    · have hb := matchesAt_bounds hm
      rw [if_neg hz, if_neg (by omega), if_pos (matchesAt_map_eq hm)]
      rfl
    · split
      · exact ih ho' hz hm
      · split
        · exact ih ho' hz hm
        · split
          · rfl
          · exact ih ho' hz hm

theorem windowSearchAux_min {lines : List String} {orig : String}
    {n m : Int} :
    ∀ offs, offs.Pairwise (· ≤ ·) →
      windowSearchAux lines orig n offs = some m →
      ∀ o' ∈ offs, o' ≠ 0 → matchesAt lines orig (n + o') → m ≤ n + o' := by
  intro offs
  induction offs with
  | nil => intro _ h; simp [windowSearchAux] at h
  | cons a rest ih =>
    intro hp h o' ho' hz hm
    have hpr := (List.pairwise_cons.mp hp).2
    have hpa := (List.pairwise_cons.mp hp).1
    unfold windowSearchAux at h
    split at h
    · next haz =>
      rcases List.mem_cons.mp ho' with rfl | ho''
      · exact absurd haz hz
      · exact ih hpr h o' ho'' hz hm
    · next haz =>
      split at h
      · next hbnd =>
        rcases List.mem_cons.mp ho' with rfl | ho''
        · have hb := matchesAt_bounds hm
          omega
        · exact ih hpr h o' ho'' hz hm
      · split at h
        · cases h
          rcases List.mem_cons.mp ho' with rfl | ho''
          · omega
          · have := hpa o' ho''
            omega
        · next hc =>
          rcases List.mem_cons.mp ho' with rfl | ho''
          · exact absurd (matchesAt_map_eq hm) hc
          · exact ih hpr h o' ho'' hz hm

theorem windowOffsets_pairwise : windowOffsets.Pairwise (· ≤ ·) := by
  decide

theorem windowOffsets_mem {o : Int} (h1 : -10 ≤ o) (h2 : o ≤ 10) :
    o ∈ windowOffsets := by
  unfold windowOffsets
  interval_cases o <;> decide

theorem windowSearch_sound {lines : List String} {orig : String}
    {n m : Int} (h : windowSearch lines n orig = some m) :
    matchesAt lines orig m ∧ m ≠ n ∧ -10 ≤ m - n ∧ m - n ≤ 10 := by
  obtain ⟨o, ho, hz, rfl, hm⟩ := windowSearchAux_sound _ h
  have hrange : -10 ≤ o ∧ o ≤ 10 := by
    unfold windowOffsets at ho
    fin_cases ho <;> omega
  exact ⟨hm, by omega, by omega, by omega⟩

theorem windowSearch_isSome {lines : List String} {orig : String}
    {n m : Int} (hm : matchesAt lines orig m) (hne : m ≠ n)
    (h1 : -10 ≤ m - n) (h2 : m - n ≤ 10) :
    (windowSearch lines n orig).isSome := by
  have : matchesAt lines orig (n + (m - n)) := by
    have : n + (m - n) = m := by omega
    rw [this]; exact hm
  exact windowSearchAux_isSome windowOffsets
    (windowOffsets_mem h1 h2) (by omega) this

theorem windowSearch_min {lines : List String} {orig : String}
    {n m m' : Int} (h : windowSearch lines n orig = some m)
    (hm : matchesAt lines orig m') (hne : m' ≠ n)
    (h1 : -10 ≤ m' - n) (h2 : m' - n ≤ 10) : m ≤ m' := by
  have : matchesAt lines orig (n + (m' - n)) := by
    have : n + (m' - n) = m' := by omega
    rw [this]; exact hm
  have := windowSearchAux_min windowOffsets windowOffsets_pairwise h
    (m' - n) (windowOffsets_mem h1 h2) (by omega) this
  omega

theorem fullScanAux_sound {orig : String} :
    ∀ (ls : List String) (i m : Nat), fullScanAux orig ls i = some m →
      ∃ k, (∃ l, ls.get? k = some l ∧ jsTrim l = orig) ∧ m = i + k + 1 ∧
        ∀ j < k, ∀ l', ls.get? j = some l' → jsTrim l' ≠ orig := by
  intro ls
  induction ls with
  | nil => intro i m h; simp [fullScanAux] at h
  | cons l rest ih =>
    intro i m h
    unfold fullScanAux at h
    split at h
    · next ht =>
      cases h
      exact ⟨0, ⟨l, rfl, ht⟩, rfl, by omega⟩
    · next ht =>
      obtain ⟨k, ⟨l', hl', ht'⟩, hm, hmin⟩ := ih (i + 1) m h
      refine ⟨k + 1, ⟨l', hl', ht'⟩, by omega, ?_⟩
      intro j hj l'' hl''
      cases j with
      | zero =>
        simp only [List.get?] at hl''
        cases hl''
        exact ht
      | succ j' => exact hmin j' (by omega) l'' hl''

theorem fullScanAux_isSome {orig : String} :
    ∀ (ls : List String) (i k : Nat) (l : String), ls.get? k = some l →
      jsTrim l = orig → (fullScanAux orig ls i).isSome := by
  intro ls
  induction ls with
  | nil => intro i k l h; simp at h
  | cons a rest ih =>
    intro i k l h ht
    unfold fullScanAux
    split
    · rfl
    · next hne =>
      cases k with
      | zero =>
        simp only [List.get?] at h
        cases h
        exact absurd ht hne
      | succ k' => exact ih (i + 1) k' l h ht

theorem fullScan_sound {lines : List String} {orig : String} {m : Nat}
    (h : fullScan lines orig = some m) :
    matchesAt lines orig (m : Int) ∧
      ∀ m' : Int, matchesAt lines orig m' → (m : Int) ≤ m' := by
  obtain ⟨k, ⟨l, hl, ht⟩, hm, hmin⟩ := fullScanAux_sound lines 0 m h
  subst hm
  constructor
  · refine ⟨l, ?_, ht⟩
    unfold jsIndex
    rw [if_neg (by omega)]
    have : ((0 + k + 1 : Nat) : Int) - 1 = (k : Int) := by omega
    rw [this]
    simpa using hl
  · intro m' hm'
    obtain ⟨s, hs, hts⟩ := hm'
    have hb := jsIndex_some_bounds hs
    unfold jsIndex at hs
    rw [if_neg (by omega)] at hs
    by_contra hlt
    push_neg at hlt
    have hjk : (m' - 1).toNat < k := by omega
    exact hmin _ hjk s hs hts

theorem fullScan_none {lines : List String} {orig : String} {m : Int}
    (h : fullScan lines orig = none) (hm : matchesAt lines orig m) :
    False := by
  obtain ⟨s, hs, ht⟩ := hm
  have hb := jsIndex_some_bounds hs
  unfold jsIndex at hs
  rw [if_neg (by omega)] at hs
  have := fullScanAux_isSome lines 0 (m - 1).toNat s hs ht
  rw [fullScan] at h
  rw [h] at this
  exact absurd this (by simp)

theorem mem_jsSetAdd_self (s : List String) (k : String) :
    k ∈ jsSetAdd s k := by
  unfold jsSetAdd
  split
  · assumption
  · simp

theorem jsSetAdd_idem (s : List String) (k : String) :
    jsSetAdd (jsSetAdd s k) k = jsSetAdd s k := by
  rw [jsSetAdd, if_pos (mem_jsSetAdd_self s k)]

theorem indexLookup_addToIndex (acc : List (String × List Issue))
    (issue : Issue) (f : String) :
    indexLookup (addToIndex acc issue) f =
      indexLookup acc f ++ (if issue.filename = f then [issue] else []) := by
  induction acc with
  | nil =>
    by_cases hf : issue.filename = f <;>
      simp [addToIndex, indexLookup, hf]
  | cons p rest ih =>
    obtain ⟨k, xs⟩ := p
    by_cases hk : k = issue.filename
    · by_cases hf : k = f
      · have hif : issue.filename = f := hk ▸ hf
        simp [addToIndex, indexLookup, hk, hf, hif]
      · have hif : issue.filename ≠ f := by rw [← hk]; exact hf
        simp [addToIndex, indexLookup, hk, hf, hif]
    · by_cases hf : k = f
      · have hif : issue.filename ≠ f := fun h => hk (hf.trans h.symm)
        have hk' : ¬f = issue.filename := fun h => hif h.symm
        simp [addToIndex, indexLookup, hk, hf, hif, hk']
      · simp [addToIndex, indexLookup, hk, hf, ih]

theorem indexLookup_foldl (issues : List Issue)
    (acc : List (String × List Issue)) (f : String) :
    indexLookup (issues.foldl addToIndex acc) f =
      indexLookup acc f ++ issues.filter (fun i => i.filename = f) := by
  induction issues generalizing acc with
  | nil => simp
  | cons i rest ih =>
    rw [List.foldl_cons, ih, indexLookup_addToIndex]
    by_cases hf : i.filename = f
    · simp [List.filter_cons, hf]
    · simp [List.filter_cons, hf]

theorem findCurrentLine_stale_of_no_match (issue : Issue) (text : String)
    (n : Int) (lc : String) (hline : issue.line = some n) (hn : n ≠ 0)
    (hlc : issue.lineContent = some lc) (hlcne : lc ≠ "")
    (hnomatch : ∀ m : Int, ¬matchesAt (splitLines text) (jsTrim lc) m) :
    findCurrentLine issue text = some ⟨some n, .stale⟩ := by
  have hmiss : ¬((jsIndex (splitLines text) (n - 1)).map jsTrim =
      some (jsTrim lc)) := fun h => hnomatch n (map_eq_matchesAt h)
  simp only [findCurrentLine, hline, hlc]
  rw [if_neg hn, if_neg hlcne, if_neg hmiss]
  rcases hw : windowSearch (splitLines text) n (jsTrim lc) with _ | m
  · rcases hf : fullScan (splitLines text) (jsTrim lc) with _ | m
    · rfl
    · exact absurd (fullScan_sound hf).1 (hnomatch m)
  · exact absurd (windowSearch_sound hw).1 (hnomatch m)

theorem no_match_of_bounded {lines : List String} {orig : String}
    (h : ∀ m ∈ Finset.Icc (1 : Int) (lines.length : Int),
      ¬matchesAt lines orig m) :
    ∀ m : Int, ¬matchesAt lines orig m := by
  intro m hm
  have hb := matchesAt_bounds hm
  exact h m (Finset.mem_Icc.mpr ⟨hb.1, hb.2⟩) hm

/-! ## Claims -/

/-- C1: for every issue with both `line` and `lineContent` set (JavaScript
truthiness: a nonzero line number and a nonempty content string) and every
file text whose line at 1-based index `issue.line` has trimmed content
equal to the trimmed `issue.lineContent`, the location resolver returns
`{currentLine: issue.line, confidence: exact}`; and repeated calls with the
same unchanged text return the same result (the resolver is a pure
function of the issue and the text). -/
theorem C1_exact_line_match (issue : Issue) (text : String)
    (n : Int) (lc : String)
    (hline : issue.line = some n)
    (hlc : issue.lineContent = some lc) (hlcne : lc ≠ "")
    (hmatch : ∃ s, jsIndex (splitLines text) (n - 1) = some s ∧
      jsTrim s = jsTrim lc) :
    findCurrentLine issue text = some ⟨some n, .exact⟩ ∧
    ∀ r₁ r₂ : Option ResolvedLocation, findCurrentLine issue text = r₁ →
      findCurrentLine issue text = r₂ → r₁ = r₂ := by
  obtain ⟨s, hs, ht⟩ := hmatch
  have hb := jsIndex_some_bounds hs
  have hn : n ≠ 0 := by omega
  have hcond : (jsIndex (splitLines text) (n - 1)).map jsTrim =
      some (jsTrim lc) := by rw [hs, Option.map_some', ht]
  constructor
  · simp only [findCurrentLine, hline, hlc]
    rw [if_neg hn, if_neg hlcne, if_pos hcond]
  · intro r₁ r₂ h₁ h₂
    rw [← h₁, ← h₂]

/-- C1 witness: scenario A of the spec — issue at line 2 with content
`" x "`, file whose line 2 is `" x"`. -/
theorem C1_exact_line_match_witness :
    findCurrentLine
      { id := 1, severity := .high, filename := "a.ts", line := some 2,
        title := "T", comments := "c", category := "bug",
        lineContent := some " x " } "a\n x\nb" =
      some ⟨some 2, .exact⟩ :=
  (C1_exact_line_match _ "a\n x\nb" 2 " x " rfl rfl (by decide)
    ⟨" x", by decide, by decide⟩).1

/-- C2 counterexample: issue recorded at line 12 with content `"x"`; the
current file matches at line 2 (offset −10) and at line 13 (offset +1).
The resolver returns line 2, which is not the nearest match by absolute
offset (line 13 is at distance 1, line 2 at distance 10). -/
theorem C2_counterexample :
    findCurrentLine
      { id := 1, severity := .high, filename := "a.ts", line := some 12,
        title := "T", comments := "c", category := "bug",
        lineContent := some "x" }
      "l1\nx\nl3\nl4\nl5\nl6\nl7\nl8\nl9\nl10\nl11\ny\nx" =
      some ⟨some 2, .approximate⟩ ∧
    matchesAt
      (splitLines "l1\nx\nl3\nl4\nl5\nl6\nl7\nl8\nl9\nl10\nl11\ny\nx")
      "x" 13 ∧
    ((13 : Int) - 12).natAbs < ((2 : Int) - 12).natAbs := by decide

/-- C2 (amended): for every issue with `line` and `lineContent` set whose
recorded line's trimmed text differs from the trimmed `lineContent`, if
some line within 10 lines of the recorded line matches it (trimmed), the
resolver returns confidence `approximate` (never `exact`) at a line inside
that window; when several lines in the window match, the returned line is
the first match in the fixed scan order of offsets −10, −9, …, −1, 1, …,
10 — i.e. the matching line with the smallest signed offset, which need
not be the one nearest to the recorded line by absolute offset. -/
theorem C2_window_match (issue : Issue) (text : String)
    (n : Int) (lc : String)
    (hline : issue.line = some n) (hn : n ≠ 0)
    (hlc : issue.lineContent = some lc) (hlcne : lc ≠ "")
    (hmiss : ¬((jsIndex (splitLines text) (n - 1)).map jsTrim =
      some (jsTrim lc)))
    (m : Int) (hm : matchesAt (splitLines text) (jsTrim lc) m)
    (hmn : m ≠ n) (hw1 : -10 ≤ m - n) (hw2 : m - n ≤ 10) :
    ∃ m₀ : Int, findCurrentLine issue text = some ⟨some m₀, .approximate⟩ ∧
      matchesAt (splitLines text) (jsTrim lc) m₀ ∧ m₀ ≠ n ∧
      -10 ≤ m₀ - n ∧ m₀ - n ≤ 10 ∧
      ∀ m' : Int, matchesAt (splitLines text) (jsTrim lc) m' → m' ≠ n →
        -10 ≤ m' - n → m' - n ≤ 10 → m₀ - n ≤ m' - n := by
  have hsome := windowSearch_isSome hm hmn hw1 hw2
  obtain ⟨m₀, hw⟩ := Option.isSome_iff_exists.mp hsome
  obtain ⟨hma, hne, h1, h2⟩ := windowSearch_sound hw
  refine ⟨m₀, ?_, hma, hne, h1, h2, ?_⟩
  · simp only [findCurrentLine, hline, hlc]
    rw [if_neg hn, if_neg hlcne, if_neg hmiss, hw]
  · intro m' hm' hmn' hw1' hw2'
    have := windowSearch_min hw hm' hmn' hw1' hw2'
    omega

/-- C2 witness: the counterexample input, through the amended theorem. -/
theorem C2_window_match_witness :
    ∃ m₀ : Int,
      findCurrentLine
        { id := 1, severity := .high, filename := "a.ts", line := some 12,
          title := "T", comments := "c", category := "bug",
          lineContent := some "x" }
        "l1\nx\nl3\nl4\nl5\nl6\nl7\nl8\nl9\nl10\nl11\ny\nx" =
        some ⟨some m₀, .approximate⟩ ∧
      matchesAt
        (splitLines "l1\nx\nl3\nl4\nl5\nl6\nl7\nl8\nl9\nl10\nl11\ny\nx")
        "x" m₀ ∧ m₀ ≠ 12 ∧ -10 ≤ m₀ - 12 ∧ m₀ - 12 ≤ 10 ∧
      ∀ m' : Int,
        matchesAt
          (splitLines "l1\nx\nl3\nl4\nl5\nl6\nl7\nl8\nl9\nl10\nl11\ny\nx")
          "x" m' → m' ≠ 12 → -10 ≤ m' - 12 → m' - 12 ≤ 10 →
          m₀ - 12 ≤ m' - 12 := by
  have h := C2_window_match
    { id := 1, severity := .high, filename := "a.ts", line := some 12,
      title := "T", comments := "c", category := "bug",
      lineContent := some "x" }
    "l1\nx\nl3\nl4\nl5\nl6\nl7\nl8\nl9\nl10\nl11\ny\nx" 12 "x"
    rfl (by decide) rfl (by decide) (by decide) 13 (by decide)
    (by decide) (by decide) (by decide)
  simpa using h

/-- C3: for every issue with `line` and `lineContent` set whose trimmed
`lineContent` matches no line at the recorded position nor within the
±10-line window, but matches at least one line elsewhere in the file, the
resolver returns confidence `approximate` at the first matching occurrence
in file order (the smallest matching line number), even when a different
matching occurrence is closer to the recorded line. -/
theorem C3_full_scan_first_occurrence (issue : Issue) (text : String)
    (n : Int) (lc : String)
    (hline : issue.line = some n) (hn : n ≠ 0)
    (hlc : issue.lineContent = some lc) (hlcne : lc ≠ "")
    (hmiss : ¬((jsIndex (splitLines text) (n - 1)).map jsTrim =
      some (jsTrim lc)))
    (hwmiss : ∀ m ∈ Finset.Icc (n - 10) (n + 10), m ≠ n →
      ¬matchesAt (splitLines text) (jsTrim lc) m)
    (hexist : ∃ m ∈ Finset.Icc (1 : Int) ((splitLines text).length : Int),
      matchesAt (splitLines text) (jsTrim lc) m) :
    ∃ m₀ : Int, findCurrentLine issue text = some ⟨some m₀, .approximate⟩ ∧
      matchesAt (splitLines text) (jsTrim lc) m₀ ∧
      ∀ m' : Int, matchesAt (splitLines text) (jsTrim lc) m' → m₀ ≤ m' := by
  obtain ⟨mw, -, hmw⟩ := hexist
  rcases hw : windowSearch (splitLines text) n (jsTrim lc) with _ | m
  · rcases hf : fullScan (splitLines text) (jsTrim lc) with _ | m₀
    · exact absurd hmw (fun h => fullScan_none hf h)
    · obtain ⟨hma, hmin⟩ := fullScan_sound hf
      refine ⟨m₀, ?_, hma, hmin⟩
      simp only [findCurrentLine, hline, hlc]
      rw [if_neg hn, if_neg hlcne, if_neg hmiss, hw, hf]
  · obtain ⟨hma, hne, h1, h2⟩ := windowSearch_sound hw
    exact absurd hma
      (hwmiss m (Finset.mem_Icc.mpr ⟨by omega, by omega⟩) hne)

/-- C3 witness: issue at line 1 with content `"x"`, matching only at line
15, well beyond the 10-line window. -/
theorem C3_full_scan_first_occurrence_witness :
    ∃ m₀ : Int,
      findCurrentLine
        { id := 1, severity := .medium, filename := "a.ts", line := some 1,
          title := "T", comments := "c", category := "bug",
          lineContent := some "x" }
        "a\na\na\na\na\na\na\na\na\na\na\na\na\na\nx" =
        some ⟨some m₀, .approximate⟩ ∧
      matchesAt
        (splitLines "a\na\na\na\na\na\na\na\na\na\na\na\na\na\nx") "x" m₀ ∧
      ∀ m' : Int,
        matchesAt
          (splitLines "a\na\na\na\na\na\na\na\na\na\na\na\na\na\nx")
          "x" m' → m₀ ≤ m' := by
  have h := C3_full_scan_first_occurrence
    { id := 1, severity := .medium, filename := "a.ts", line := some 1,
      title := "T", comments := "c", category := "bug",
      lineContent := some "x" }
    "a\na\na\na\na\na\na\na\na\na\na\na\na\na\nx" 1 "x"
    rfl (by decide) rfl (by decide) (by decide) (by decide)
    ⟨15, by decide, by decide⟩
  simpa using h

/-- C4 counterexample: issue at line 5 with no `lineContent` over a 2-line
file — the resolver returns `stale` with `currentLine` equal to the
recorded line `5`, not `null`. -/
theorem C4_counterexample :
    findCurrentLine
      { id := 1, severity := .low, filename := "a.ts", line := some 5,
        title := "T", comments := "c", category := "bug" } "a\nb" =
      some ⟨some 5, .stale⟩ ∧
    (some (5 : Int) ≠ (none : Option Int)) := by decide

/-- C4 (amended): for every issue with `line` set (nonzero) but
`lineContent` absent (or the falsy empty string), the resolver returns
`{currentLine: issue.line, confidence: approximate}` when
`1 ≤ issue.line ≤ lineCount(fileText)`, and otherwise returns confidence
`stale` with `currentLine` equal to the recorded `issue.line` (not
null). -/
theorem C4_no_content_fallback (issue : Issue) (text : String) (n : Int)
    (hline : issue.line = some n) (hn : n ≠ 0)
    (hlc : issue.lineContent = none ∨ issue.lineContent = some "") :
    (1 ≤ n ∧ n ≤ ((splitLines text).length : Int) →
      findCurrentLine issue text = some ⟨some n, .approximate⟩) ∧
    (¬(1 ≤ n ∧ n ≤ ((splitLines text).length : Int)) →
      findCurrentLine issue text = some ⟨some n, .stale⟩) := by
  have h1 : findCurrentLine issue text =
      lineNumberFallback n (splitLines text).length := by
    rcases hlc with h | h <;> simp [findCurrentLine, hline, h, hn]
  rw [h1]
  unfold lineNumberFallback
  constructor <;> intro hcond
  · rw [if_pos (by omega)]
  · rw [if_neg (by omega)]

/-- C4 witness: the in-bounds and out-of-bounds behavior at concrete
inputs (line 2 of a 2-line file; line 5 of a 2-line file). -/
theorem C4_no_content_fallback_witness :
    findCurrentLine
      { id := 2, severity := .low, filename := "b.ts", line := some 2,
        title := "T", comments := "c", category := "bug" } "a\nb" =
      some ⟨some 2, .approximate⟩ ∧
    findCurrentLine
      { id := 2, severity := .low, filename := "b.ts", line := some 5,
        title := "T", comments := "c", category := "bug" } "a\nb" =
      some ⟨some 5, .stale⟩ :=
  ⟨(C4_no_content_fallback _ "a\nb" 2 rfl (by decide)
      (Or.inl rfl)).1 (by decide),
   (C4_no_content_fallback _ "a\nb" 5 rfl (by decide)
      (Or.inl rfl)).2 (by decide)⟩

/-- C5 counterexample: over empty file text (which splits into one empty
line), the line-bearing issue at line 1 with no `lineContent` resolves
`approximate` at line 1 — not `stale` as the claim requires of every
line-bearing issue on empty text. -/
theorem C5_counterexample :
    findCurrentLine
      { id := 1, severity := .low, filename := "a.ts", line := some 1,
        title := "T", comments := "c", category := "bug" } "" =
      some ⟨some 1, .approximate⟩ := by decide

/-- C5 (amended): an out-of-bounds recorded line yields `stale` when
`lineContent` is absent (or empty); an issue whose nonempty trimmed
`lineContent` matches no line of the file yields `stale` whether its
recorded line is in bounds or not; and empty file text splits into a
single empty line, so on empty text an issue with nonempty trimmed
`lineContent` is `stale`, while an issue with `lineContent` absent is
`approximate` at line 1 exactly when its recorded line is 1 (and `stale`
otherwise). -/
theorem C5_stale_policy (issue : Issue) (text : String) (n : Int)
    (hline : issue.line = some n) (hn : n ≠ 0) :
    ((issue.lineContent = none ∨ issue.lineContent = some "") →
      ¬(1 ≤ n ∧ n ≤ ((splitLines text).length : Int)) →
      findCurrentLine issue text = some ⟨some n, .stale⟩) ∧
    (∀ lc, issue.lineContent = some lc → lc ≠ "" →
      (∀ m ∈ Finset.Icc (1 : Int) ((splitLines text).length : Int),
        ¬matchesAt (splitLines text) (jsTrim lc) m) →
      findCurrentLine issue text = some ⟨some n, .stale⟩) ∧
    (∀ lc, issue.lineContent = some lc → lc ≠ "" → jsTrim lc ≠ "" →
      findCurrentLine issue "" = some ⟨some n, .stale⟩) ∧
    (issue.lineContent = none →
      findCurrentLine issue "" =
        some ⟨some n, if n = 1 then .approximate else .stale⟩) := by
  refine ⟨?_, ?_, ?_, ?_⟩
  · intro hlc hob
    exact (C4_no_content_fallback issue text n hline hn hlc).2 hob
  · intro lc hlc hlcne hnomatch
    exact findCurrentLine_stale_of_no_match issue text n lc hline hn hlc
      hlcne (no_match_of_bounded hnomatch)
  · intro lc hlc hlcne htrim
    refine findCurrentLine_stale_of_no_match issue "" n lc hline hn hlc
      hlcne ?_
    intro m hm
    obtain ⟨s, hs, ht⟩ := hm
    have hb := jsIndex_some_bounds hs
    unfold jsIndex at hs
    rw [if_neg (by omega)] at hs
    have hsp : splitLines "" = [""] := by decide
    rw [hsp] at hs
    have h0 : (m - 1).toNat = 0 := by
      rw [hsp] at hb
      simp at hb
      omega
    rw [h0] at hs
    simp only [List.get?] at hs
    cases hs
    exact htrim (by rw [← ht]; decide)
  · intro hlc
    have hsp : splitLines "" = [""] := by decide
    simp only [findCurrentLine, hline, hlc, hsp]
    rw [if_neg hn]
    unfold lineNumberFallback
    by_cases h1 : n = 1
    · subst h1
      rw [if_pos (by norm_num), if_pos rfl]
    · rw [if_neg (by simp; omega), if_neg h1]

/-- C5 witness: out-of-bounds without content; nonempty content absent
from the file; nonempty content over empty text; absent content over
empty text at line 2. -/
theorem C5_stale_policy_witness :
    findCurrentLine
      { id := 1, severity := .low, filename := "a.ts", line := some 99,
        title := "T", comments := "c", category := "bug" } "a\nb" =
      some ⟨some 99, .stale⟩ ∧
    findCurrentLine
      { id := 1, severity := .low, filename := "a.ts", line := some 1,
        title := "T", comments := "c", category := "bug",
        lineContent := some " q" } "a\nb" =
      some ⟨some 1, .stale⟩ ∧
    findCurrentLine
      { id := 1, severity := .low, filename := "a.ts", line := some 1,
        title := "T", comments := "c", category := "bug",
        lineContent := some " q" } "" =
      some ⟨some 1, .stale⟩ ∧
    findCurrentLine
      { id := 1, severity := .low, filename := "a.ts", line := some 2,
        title := "T", comments := "c", category := "bug" } "" =
      some ⟨some 2, .stale⟩ := by
  refine ⟨(C5_stale_policy _ "a\nb" 99 rfl (by decide)).1
      (Or.inl rfl) (by decide),
    (C5_stale_policy _ "a\nb" 1 rfl (by decide)).2.1 " q" rfl
      (by decide) (by decide),
    (C5_stale_policy _ "" 1 rfl (by decide)).2.2.1 " q" rfl
      (by decide) (by decide),
    ?_⟩
  have h := (C5_stale_policy
    { id := 1, severity := .low, filename := "a.ts", line := some 2,
      title := "T", comments := "c", category := "bug" } "" 2 rfl
    (by decide)).2.2.2 rfl
  simpa using h

/-- C10: implicit postcondition of the resolver — for every issue with
`line` and `lineContent` set and every file text, whenever the resolver
returns confidence `exact` or `approximate`, the trimmed content of the
file's line at the returned `currentLine` equals the trimmed
`issue.lineContent`; and confidence `exact` is returned only with
`currentLine` equal to `issue.line`. -/
theorem C10_nonstale_matches_content (issue : Issue) (text : String)
    (n : Int) (lc : String) (l : Int) (conf : LocationConfidence)
    (hline : issue.line = some n)
    (hlc : issue.lineContent = some lc) (hlcne : lc ≠ "")
    (hres : findCurrentLine issue text = some ⟨some l, conf⟩)
    (hconf : conf ≠ .stale) :
    matchesAt (splitLines text) (jsTrim lc) l ∧ (conf = .exact → l = n) := by
  by_cases hn : n = 0
  · simp [findCurrentLine, hline, hn] at hres
  · simp only [findCurrentLine, hline, hlc] at hres
    rw [if_neg hn, if_neg hlcne] at hres
    by_cases hex : (jsIndex (splitLines text) (n - 1)).map jsTrim =
        some (jsTrim lc)
    · rw [if_pos hex] at hres
      simp only [Option.some.injEq, ResolvedLocation.mk.injEq] at hres
      obtain ⟨hl, hc⟩ := hres
      obtain rfl : l = n := hl.symm
      exact ⟨map_eq_matchesAt hex, fun _ => rfl⟩
    · rw [if_neg hex] at hres
      rcases hw : windowSearch (splitLines text) n (jsTrim lc) with _ | m
      · rw [hw] at hres
        rcases hf : fullScan (splitLines text) (jsTrim lc) with _ | m
        · rw [hf] at hres
          simp only [Option.some.injEq, ResolvedLocation.mk.injEq] at hres
          exact absurd hres.2.symm hconf
        · rw [hf] at hres
          simp only [Option.some.injEq, ResolvedLocation.mk.injEq] at hres
          obtain ⟨hl, hc⟩ := hres
          obtain rfl : l = (m : Int) := hl.symm
          refine ⟨(fullScan_sound hf).1, fun hcex => ?_⟩
          rw [← hc] at hcex
          exact absurd hcex (by simp)
      · rw [hw] at hres
        simp only [Option.some.injEq, ResolvedLocation.mk.injEq] at hres
        obtain ⟨hl, hc⟩ := hres
        obtain rfl : l = m := hl.symm
        refine ⟨(windowSearch_sound hw).1, fun hcex => ?_⟩
        rw [← hc] at hcex
        exact absurd hcex (by simp)

/-- C10 witness: the exact-match case at line 2 of a 3-line file. -/
theorem C10_nonstale_matches_content_witness :
    matchesAt (splitLines "a\n x\nb") (jsTrim " x ") 2 :=
  (C10_nonstale_matches_content
    { id := 1, severity := .high, filename := "a.ts", line := some 2,
      title := "T", comments := "c", category := "bug",
      lineContent := some " x " } "a\n x\nb" 2 " x " 2 .exact
    rfl rfl (by decide) (by decide) (by decide)).1

theorem mem_decorationRender {dismissed : List String}
    {issues : List Issue} {text : String} {d : RenderedDecoration} :
    d ∈ decorationRender dismissed issues text ↔
      d.issue ∈ issues ∧
      decorationIsDismissed dismissed d.issue = false ∧
      ∃ loc, findCurrentLine d.issue text = some loc ∧
        ∃ cl, loc.currentLine = some cl ∧ loc.confidence ≠ .stale ∧
          d.line0 = cl - 1 ∧ d.confidence = loc.confidence ∧
          ¬(cl - 1 < 0 ∨ cl - 1 ≥ ((splitLines text).length : Int)) := by
  simp only [decorationRender, List.mem_filterMap]
  constructor
  · rintro ⟨a, ha, hfa⟩
    split at hfa
    · exact absurd hfa (by simp)
    · next hdis =>
      split at hfa
      · exact absurd hfa (by simp)
      · next loc hloc =>
        split at hfa
        · exact absurd hfa (by simp)
        · next cl hcl =>
          split at hfa
          · exact absurd hfa (by simp)
          · next hst =>
            split at hfa
            · exact absurd hfa (by simp)
            · next hbnd =>
              cases hfa
              exact ⟨ha, by simpa using hdis,
                loc, hloc, cl, hcl, hst, rfl, rfl, hbnd⟩
  · rintro ⟨ha, hdis, loc, hloc, cl, hcl, hst, hl0, hcf, hbnd⟩
    refine ⟨d.issue, ha, ?_⟩
    rw [hloc]
    simp only [hdis, Bool.false_eq_true, if_false, hcl]
    rw [if_neg hst, if_neg hbnd]
    cases d
    simp_all

/-- C6 counterexample: an issue whose resolution is `stale` (line 5,
content `"xyz"`, empty file) is dropped by the decoration surface but
still rendered by the diagnostics surface, which never invokes the
resolver. -/
theorem C6_counterexample :
    (findCurrentLine
      { id := 1, severity := .high, filename := "a.ts", line := some 5,
        title := "T", comments := "c", category := "bug",
        lineContent := some "xyz" } "").map ResolvedLocation.confidence =
      some .stale ∧
    decorationRender []
      [{ id := 1, severity := .high, filename := "a.ts", line := some 5,
         title := "T", comments := "c", category := "bug",
         lineContent := some "xyz" }] "" = [] ∧
    diagnosticRender []
      [{ id := 1, severity := .high, filename := "a.ts", line := some 5,
         title := "T", comments := "c", category := "bug",
         lineContent := some "xyz" }] ≠ [] := by decide

/-- C6 (amended): only the inline decoration surface resolves each
non-dismissed issue via the location resolver and drops `stale` results
(rendering at the resolver's 1-based output minus 1); the structured
diagnostics surface renders every non-dismissed issue at the 0-based line
`(issue.line || 1) - 1` without consulting the resolver or the file text,
so a `stale` issue still appears there. -/
theorem C6_stale_dropped_only_on_decorations :
    (∀ (dismissed : List String) (issues : List Issue) (text : String)
        (i : Issue),
      (findCurrentLine i text).map ResolvedLocation.confidence =
        some .stale →
      ∀ d ∈ decorationRender dismissed issues text, d.issue ≠ i) ∧
    (∀ (dismissed : List String) (issues : List Issue) (i : Issue),
      i ∈ issues → diagnosticIsDismissed dismissed i = false →
      createDiagnostic i ∈ diagnosticRender dismissed issues ∧
      (createDiagnostic i).line0 = jsLineOr1 i.line - 1) ∧
    (∀ (dismissed : List String) (issues : List Issue) (text : String)
        (d : RenderedDecoration), d ∈ decorationRender dismissed issues text →
      d.issue ∈ issues ∧ decorationIsDismissed dismissed d.issue = false ∧
      ∃ loc, findCurrentLine d.issue text = some loc ∧
        loc.confidence ≠ .stale ∧ loc.currentLine = some (d.line0 + 1)) := by
  refine ⟨?_, ?_, ?_⟩
  · intro dismissed issues text i hstale d hd hdi
    obtain ⟨-, -, loc, hloc, cl, -, hst, -, -, -⟩ :=
      mem_decorationRender.mp hd
    rw [hdi] at hloc
    rw [hloc] at hstale
    simp only [Option.map_some'] at hstale
    exact hst (by injection hstale)
  · intro dismissed issues i hi hdis
    constructor
    · simp only [diagnosticRender, List.mem_filterMap]
      exact ⟨i, hi, by simp [hdis]⟩
    · rfl
  · intro dismissed issues text d hd
    obtain ⟨ha, hdis, loc, hloc, cl, hcl, hst, hl0, hcf, -⟩ :=
      mem_decorationRender.mp hd
    refine ⟨ha, hdis, loc, hloc, hst, ?_⟩
    rw [hcl, hl0]
    congr 1
    omega

/-- C6 witness: the stale issue of the counterexample is rendered by the
diagnostics surface at line `(5 || 1) - 1 = 4`; and a resolvable issue
rendered by the decoration surface carries the resolver's 1-based line
converted to 0-based. -/
theorem C6_stale_dropped_only_on_decorations_witness :
    (createDiagnostic
      { id := 1, severity := .high, filename := "a.ts", line := some 5,
        title := "T", comments := "c", category := "bug",
        lineContent := some "xyz" } ∈
      diagnosticRender []
        [{ id := 1, severity := .high, filename := "a.ts", line := some 5,
           title := "T", comments := "c", category := "bug",
           lineContent := some "xyz" }]) ∧
    (∃ loc, findCurrentLine
        { id := 2, severity := .low, filename := "b.ts", line := some 1,
          title := "U", comments := "c", category := "bug",
          lineContent := some "x" } "x" = some loc ∧
      loc.confidence ≠ .stale ∧
      loc.currentLine = some ((0 : Int) + 1)) := by
  constructor
  · exact (C6_stale_dropped_only_on_decorations.2.1 []
      [{ id := 1, severity := .high, filename := "a.ts", line := some 5,
         title := "T", comments := "c", category := "bug",
         lineContent := some "xyz" }]
      { id := 1, severity := .high, filename := "a.ts", line := some 5,
        title := "T", comments := "c", category := "bug",
        lineContent := some "xyz" } (by decide) (by decide)).1
  · have h := C6_stale_dropped_only_on_decorations.2.2 []
      [{ id := 2, severity := .low, filename := "b.ts", line := some 1,
         title := "U", comments := "c", category := "bug",
         lineContent := some "x" }] "x"
      ⟨{ id := 2, severity := .low, filename := "b.ts", line := some 1,
         title := "U", comments := "c", category := "bug",
         lineContent := some "x" }, 0, .exact⟩ (by decide)
    exact h.2.2

/-- C7 counterexample: with the ledger holding exactly the identity key
`"a.ts:1:T"` of the issue, the decoration surface reports it dismissed but
the diagnostics surface — which checks `"a.ts:1"` against its own set —
does not: the two consumers disagree, and the diagnostics surface does not
compute `isDismissed` from `filename:id:title`. -/
theorem C7_counterexample :
    decorationIsDismissed ["a.ts:1:T"]
      { id := 1, severity := .high, filename := "a.ts", line := some 3,
        title := "T", comments := "c", category := "bug" } = true ∧
    diagnosticIsDismissed ["a.ts:1:T"]
      { id := 1, severity := .high, filename := "a.ts", line := some 3,
        title := "T", comments := "c", category := "bug" } = false := by
  decide

/-- C7 (amended): the decoration surface computes `isDismissed` from the
identity key `filename:id:title`, while the diagnostics surface keeps a
separate ledger keyed by `filename:id` (no title); the two surfaces agree
on a dismissal routed through the extension's `dismissIssue` command,
which adds `filename:id:title` to the decoration ledger and splits the key
on `":"` to add `filename:id` to the diagnostics ledger — provided the
issue's filename contains no colon, so that the split recovers the
filename and id. -/
theorem C7_dismiss_keys_diverge (st : LedgerState) (issue : Issue)
    (rest : List String)
    (hsplit : splitOnChar ':' (getIssueKey issue) =
      issue.filename :: toString issue.id :: rest)
    (hparse : parseInt10 (toString issue.id) = some issue.id) :
    decorationIsDismissed
      (dismissIssueCommand st (getIssueKey issue)).dec issue = true ∧
    diagnosticIsDismissed
      (dismissIssueCommand st (getIssueKey issue)).diag issue = true := by
  constructor
  · simp only [dismissIssueCommand, hsplit, hparse]
    simp only [decorationIsDismissed, decide_eq_true_eq]
    exact mem_jsSetAdd_self _ _
  · simp only [dismissIssueCommand, hsplit, hparse]
    simp only [diagnosticIsDismissed, decide_eq_true_eq]
    exact mem_jsSetAdd_self _ _

/-- C7 witness: dismissing issue 1 of `a.ts` titled `"T"` from empty
ledgers marks it dismissed on both surfaces. -/
theorem C7_dismiss_keys_diverge_witness :
    decorationIsDismissed
      (dismissIssueCommand ⟨[], []⟩
        (getIssueKey
          { id := 1, severity := .high, filename := "a.ts",
            line := some 3, title := "T", comments := "c",
            category := "bug" })).dec
      { id := 1, severity := .high, filename := "a.ts", line := some 3,
        title := "T", comments := "c", category := "bug" } = true ∧
    diagnosticIsDismissed
      (dismissIssueCommand ⟨[], []⟩
        (getIssueKey
          { id := 1, severity := .high, filename := "a.ts",
            line := some 3, title := "T", comments := "c",
            category := "bug" })).diag
      { id := 1, severity := .high, filename := "a.ts", line := some 3,
        title := "T", comments := "c", category := "bug" } = true :=
  C7_dismiss_keys_diverge ⟨[], []⟩
    { id := 1, severity := .high, filename := "a.ts", line := some 3,
      title := "T", comments := "c", category := "bug" }
    ["T"] (by decide) (by decide)

/-- C8 counterexample: ingesting a review whose issues arrive as
[low-severity id 1, high-severity id 2] for the same file stores them in
that input order, which is not ordered by severity high→medium→low. -/
theorem C8_counterexample :
    specOrdered
      (issuesFor
        ⟨[{ id := 1, severity := .low, filename := "a.ts", line := some 1,
            title := "A", comments := "c", category := "bug" },
          { id := 2, severity := .high, filename := "a.ts", line := some 2,
            title := "B", comments := "c", category := "bug" }]⟩
        "c0ffee" "a.ts") = false := by decide

/-- C8 (amended): after ingesting any ReviewResult, the stored sequence of
issues for each file is the subsequence of `reviewResponse.issues` with
that filename, in input order, with `reviewCommit` backfilled on issues
missing it — no ordering by severity or id is applied. -/
theorem C8_ingestion_preserves_input_order (r : ReviewResponse)
    (commit : String) (f : String) :
    issuesFor r commit f =
      (r.issues.map (backfillCommit commit)).filter
        (fun i => i.filename = f) := by
  unfold issuesFor updateReviewIndex
  rw [indexLookup_foldl]
  simp [indexLookup]

/-- C9: for every key and every starting ledger state, dismissing a key
twice yields the same ledger state — hence the same rendered output — as
dismissing it once; and clearing dismissed issues (restore-all) yields
`isDismissed` false for every issue on both surfaces, after any sequence
of dismissals. -/
theorem C9_dismiss_idempotent_restore_clears :
    (∀ (st : LedgerState) (key : String),
      dismissIssueCommand (dismissIssueCommand st key) key =
        dismissIssueCommand st key) ∧
    (∀ (st : LedgerState) (issue : Issue),
      decorationIsDismissed (clearDismissedCommand st).dec issue = false ∧
      diagnosticIsDismissed (clearDismissedCommand st).diag issue = false) ∧
    (∀ (st : LedgerState) (key : String) (issues : List Issue)
        (text : String),
      decorationRender (dismissIssueCommand (dismissIssueCommand st key)
          key).dec issues text =
        decorationRender (dismissIssueCommand st key).dec issues text ∧
      diagnosticRender (dismissIssueCommand (dismissIssueCommand st key)
          key).diag issues =
        diagnosticRender (dismissIssueCommand st key).diag issues) := by
  have h1 : ∀ (st : LedgerState) (key : String),
      dismissIssueCommand (dismissIssueCommand st key) key =
        dismissIssueCommand st key := by
    intro st key
    rcases h : splitOnChar ':' key with _ | ⟨f1, rest⟩
    · simp [dismissIssueCommand, h, jsSetAdd_idem]
    · rcases rest with _ | ⟨idStr, rest2⟩
      · simp [dismissIssueCommand, h, jsSetAdd_idem]
      · rcases hp : parseInt10 idStr with _ | id <;>
          simp [dismissIssueCommand, h, hp, jsSetAdd_idem]
  refine ⟨h1, ?_, fun st key issues text => by rw [h1]; exact ⟨rfl, rfl⟩⟩
  intro st issue
  constructor <;>
    simp [clearDismissedCommand, decorationIsDismissed,
      diagnosticIsDismissed]

end CAR
